import Mathlib

/-!
Verification development for `csim.c`, a set-associative cache simulator.

The C program reads a trace of events `<op> <address>,<size>` with
`op ∈ {L, S, M, I}`, decodes each address into a tag and a set index,
classifies each access as a hit, a miss into a free line, or a miss with
eviction of the LRU line, and counts hits, misses and evictions.

The embedding below follows the source function by function.  C machine
integers are modelled as `Nat` with explicit `% 2 ^ w` where the code
truncates: `Line.valid`, `Line.tag`, `Line.lru` are `unsigned int`
(32 bits), addresses are `unsigned long int` (64 bits), and the local
`tag`/`set` variables of `simulateCache` are `int`, so decoded values are
reduced `% 2 ^ 32`.  C shifts of a 64-bit value by 64 or more bits are
undefined behaviour; the decoder therefore returns `Option` and yields
`none` exactly when such a shift would be executed.
-/

namespace Csim

/-- `struct Line` of csim.c: `valid`, `tag`, `lru` are C `unsigned int`.
The program only ever stores 0 or 1 in `valid`; tags are stored through a
32-bit field, so every stored tag is the 32-bit pattern of the decoded
value. -/
structure Line where
  valid : Nat
  tag : Nat
  lru : Nat
deriving DecidableEq

instance : Inhabited Line := ⟨⟨0, 0, 0⟩⟩

/-- The three counters `hit_count`, `miss_count`, `eviction_count` of
`simulateCache`. -/
structure Tally where
  hits : Nat
  misses : Nat
  evictions : Nat
deriving DecidableEq

/-- The mutable state of one simulation run: the `Set *cache` array
(each set is its `lines_per_set` lines) together with the counters. -/
structure CacheState where
  sets : List (List Line)
  counts : Tally
deriving DecidableEq

/-- Read a line of a set; the C code only indexes within bounds
(`0 <= i < lines_per_set`), so the default is never consulted in the
program's reachable configurations. -/
def lineAt (lines : List Line) (i : Nat) : Line :=
  lines.getD i ⟨0, 0, 0⟩

/-- The scanning idiom shared by the three loops of `operationL`/`S`/`M`:
walk the lines in index order and return the index of the first line
satisfying the condition, as each loop `break`s at its first match. -/
def scan1 (p : Line → Bool) : List Line → Option Nat
  | [] => none
  | l :: ls => if p l then some 0 else (scan1 p ls).map (· + 1)

/-- Loop 1 condition: `valid == 1 && tag == tag` (hit scan). -/
def hitPred (t : Nat) (l : Line) : Bool :=
  l.valid == 1 && l.tag == t

/-- Loop 2 condition: `valid == 0` (free-line scan). -/
def freePred (l : Line) : Bool :=
  l.valid == 0

/-- Loop 3 condition: `lru == lines_per_set - 1` (eviction scan).  For
`E ≥ 1` this is exactly the C comparison; the set always has exactly `E`
lines, so for `E = 0` the loop body is never entered at all. -/
def victimPred (E : Nat) (l : Line) : Bool :=
  l.lru == E - 1

/-- The hit scan of `operationL`/`S`/`M` (first loop). -/
def findHit (t : Nat) (lines : List Line) : Option Nat :=
  scan1 (hitPred t) lines

/-- The free-line scan of `operationL`/`S`/`M` (second loop). -/
def findFree (lines : List Line) : Option Nat :=
  scan1 freePred lines

/-- The eviction scan of `operationL`/`S`/`M` (third loop). -/
def findVictim (E : Nat) (lines : List Line) : Option Nat :=
  scan1 (victimPred E) lines

/-- Body of the `updateLRU` loop for one line: only valid lines are
updated; the line whose `lru` equals `prev_lru` goes to 0, lines with a
strictly smaller `lru` are incremented, others are untouched. -/
def touchLine (prev : Nat) (l : Line) : Line :=
  if l.valid = 1 then
    if l.lru ≤ prev then
      if l.lru = prev then { l with lru := 0 } else { l with lru := l.lru + 1 }
    else l
  else l

/-- `updateLRU` of csim.c, acting on the lines of one set.  The C loop
updates each line independently, so it is a `map`. -/
def updateLRU (prev : Nat) (lines : List Line) : List Line :=
  lines.map (touchLine prev)

/-- `hit()` of csim.c, state part: no storage mutation, only
`updateLRU(cache, set, cache[set].Lines[i].lru, lines_per_set)`. -/
def hitUpd (lines : List Line) (i : Nat) : List Line :=
  updateLRU (lineAt lines i).lru lines

/-- `miss()` of csim.c, state part: set `valid = 1`, `tag = tag` on line
`i`, then `updateLRU` with the line's `lru` read after the install (the
install does not change `lru`). -/
def missUpd (t : Nat) (lines : List Line) (i : Nat) : List Line :=
  let lines2 := lines.set i { lineAt lines i with valid := 1, tag := t }
  updateLRU (lineAt lines2 i).lru lines2

/-- `eviction()` of csim.c, state part: for `'L'` the code sets both
`valid = 1` and `tag = tag`; for `'S'`/`'M'` it sets only `tag = tag`
(the victim is already valid whenever this branch is reachable). -/
def evictUpd (op : Char) (t : Nat) (lines : List Line) (i : Nat) : List Line :=
  let lines2 :=
    if op = 'L' then lines.set i { lineAt lines i with valid := 1, tag := t }
    else lines.set i { lineAt lines i with tag := t }
  updateLRU (lineAt lines2 i).lru lines2

/-- Common body of `operationL`, `operationS`, `operationM`: the three
functions are textually identical except for the operation character,
which decides the counter increments of `hit()`/`miss()`/`eviction()`
and the `valid` write of `eviction()`. -/
def operationC (op : Char) (E t : Nat) (lines : List Line) (c : Tally) :
    List Line × Tally :=
  match findHit t lines with
  | some i =>
      (hitUpd lines i,
        ⟨c.hits + (if op = 'M' then 2 else 1), c.misses, c.evictions⟩)
  | none =>
      match findFree lines with
      | some i =>
          (missUpd t lines i,
            ⟨c.hits + (if op = 'M' then 1 else 0), c.misses + 1, c.evictions⟩)
      | none =>
          match findVictim E lines with
          | some i =>
              (evictUpd op t lines i,
                ⟨c.hits + (if op = 'M' then 1 else 0), c.misses + 1,
                  c.evictions + 1⟩)
          | none => (lines, c)

/-- `operationL` of csim.c restricted to the decoded set it touches. -/
def operationL (E t : Nat) (lines : List Line) (c : Tally) : List Line × Tally :=
  operationC 'L' E t lines c

/-- `operationS` of csim.c restricted to the decoded set it touches. -/
def operationS (E t : Nat) (lines : List Line) (c : Tally) : List Line × Tally :=
  operationC 'S' E t lines c

/-- `operationM` of csim.c restricted to the decoded set it touches. -/
def operationM (E t : Nat) (lines : List Line) (c : Tally) : List Line × Tally :=
  operationC 'M' E t lines c

/-- The classification an event receives, read off from which branch of
`operationL`/`S`/`M` fires.  `NOP` marks the configuration in which none
of the three loops finds a line; it never occurs for a set whose ranks
form a permutation of `{0, …, E-1}` with `E ≥ 1`. -/
inductive Classification where
  | HIT
  | MISS_FILL
  | MISS_EVICT
  | NOP
deriving DecidableEq

/-- Classify one access against one set, mirroring the branch structure
of `operationL`/`S`/`M`. -/
def classify (E t : Nat) (lines : List Line) : Classification :=
  match findHit t lines with
  | some _ => .HIT
  | none =>
      match findFree lines with
      | some _ => .MISS_FILL
      | none =>
          match findVictim E lines with
          | some _ => .MISS_EVICT
          | none => .NOP

/-- The error the dispatch loop of `simulateCache` signals (by printing
`"Error \n"` and leaving the event without effect) for an operation
letter outside `{L, S, M, I}`. -/
inductive SimError where
  | UnrecognizedEventKind
deriving DecidableEq

/-- Apply one of the three operations to the decoded target set of the
cache, leaving every other set untouched and updating the counters. -/
def applyOp (op : Char) (E setIdx t : Nat) (cs : CacheState) : CacheState :=
  let r := operationC op E t (cs.sets.getD setIdx []) cs.counts
  ⟨cs.sets.set setIdx r.1, r.2⟩

/-- One iteration of the dispatch loop of `simulateCache` on an already
decoded event: `strncmp` against `"L"`, `"S"`, `"M"`, `"I"` in that
order; any other letter changes nothing and reports the error. -/
def stepEvent (E : Nat) (op : Char) (setIdx t : Nat) (cs : CacheState) :
    CacheState × Option SimError :=
  if op = 'L' then (applyOp 'L' E setIdx t cs, none)
  else if op = 'S' then (applyOp 'S' E setIdx t cs, none)
  else if op = 'M' then (applyOp 'M' E setIdx t cs, none)
  else if op = 'I' then (cs, none)
  else (cs, some SimError.UnrecognizedEventKind)

/-- The dispatch loop of `simulateCache` over a list of decoded events
`(op, setIndex, tag)`; like the C loop it keeps going after an
unrecognized operation letter. -/
def runEvents (E : Nat) (evs : List (Char × Nat × Nat)) (cs : CacheState) :
    CacheState :=
  evs.foldl (fun acc e => (stepEvent E e.1 e.2.1 e.2.2 acc).1) cs

/-- Address decomposition of `simulateCache`, with `b` the block-offset
bit count (`log2(block_size)`) and `s` the set-index bit count
(`log2(num_sets)`):

  `tag = address >> (b + s)` and
  `set = (address << (64 - (b + s))) >> (64 - s)`,

both then stored into C `int` variables (truncation `% 2 ^ 32`).  The
shifts act on a 64-bit `unsigned long int`, so a shift count of 64 or
more is undefined behaviour in C; that happens exactly when `s = 0`
(count `64 - s = 64`) or `b + s ≥ 64` (count of the tag shift), hence
the decode is defined iff `1 ≤ s ∧ s + b ≤ 63`. -/
def decode (b s : Nat) (address : Nat) : Option (Nat × Nat) :=
  if 1 ≤ s ∧ s + b ≤ 63 then
    some (address / 2 ^ (b + s) % 2 ^ 32,
      address * 2 ^ (64 - (b + s)) % 2 ^ 64 / 2 ^ (64 - s) % 2 ^ 32)
  else none

/-- Initial value of line `j` of every set (`simulateCache` init loop):
`valid = 0`, `tag = 0`, `lru = j`. -/
def initLine (j : Nat) : Line :=
  ⟨0, 0, j⟩

/-- One freshly initialized set of `lines_per_set` lines. -/
def initSet (E : Nat) : List Line :=
  (List.range E).map initLine

/-- The freshly initialized cache of `simulateCache` with all counters
zero.  The C code performs no geometry validation: any `num_sets` and
`lines_per_set` values are accepted and the mallocs simply size the
arrays accordingly. -/
def initState (numSets E : Nat) : CacheState :=
  ⟨List.replicate numSets (initSet E), ⟨0, 0, 0⟩⟩

/-- The rank-permutation property of one set: the multiset of `lru`
values over all its lines is exactly `{0, …, E-1}`. -/
def rankPerm (E : Nat) (lines : List Line) : Prop :=
  (lines.map Line.lru).Perm (List.range E)

/-- The reachable-state invariant of one set: some `k` lines are valid
and they are exactly the slots `0, …, k-1`, their ranks form a
permutation of `{0, …, k-1}`, and every still-invalid slot `i ≥ k` keeps
its initial rank `i`. -/
def goodSet (E : Nat) (lines : List Line) : Prop :=
  ∃ k, k ≤ E ∧ lines.length = E ∧
    (∀ i, i < E → (lineAt lines i).valid = if i < k then 1 else 0) ∧
    (∀ i, i < E → k ≤ i → (lineAt lines i).lru = i) ∧
    ((lines.take k).map Line.lru).Perm (List.range k)

/-- At-most-one-tag property of one set: no two distinct valid lines
hold the same tag. -/
def tagsOnce (lines : List Line) : Prop :=
  ∀ i j, i < lines.length → j < lines.length → i ≠ j →
    (lineAt lines i).valid = 1 → (lineAt lines j).valid = 1 →
    (lineAt lines i).tag ≠ (lineAt lines j).tag

/-- The storage content of a line: its `valid` and `tag` fields,
forgetting the recency rank. -/
def storageView (l : Line) : Nat × Nat :=
  (l.valid, l.tag)

/-- Effect of one `touch` on a single rank value `r` when the touched
line previously had rank `prev`. -/
def rankMap (prev r : Nat) : Nat :=
  if r = prev then 0 else if r < prev then r + 1 else r

/-- Sum of tallies. -/
def tallyAdd (a b : Tally) : Tally :=
  ⟨a.hits + b.hits, a.misses + b.misses, a.evictions + b.evictions⟩

/-- Modelled from the spec: the counter-update table of §4.4 step 3
(rows Load/Store, Modify, Instruction against columns hits/misses/
evictions).  The `NOP` row is not part of the table; it is listed as
all-zero only so the function is total. -/
def specTableDelta (op : Char) (cl : Classification) : Tally :=
  if op = 'M' then
    match cl with
    | .HIT => ⟨2, 0, 0⟩
    | .MISS_FILL => ⟨1, 1, 0⟩
    | .MISS_EVICT => ⟨1, 1, 1⟩
    | .NOP => ⟨0, 0, 0⟩
  else if op = 'I' then ⟨0, 0, 0⟩
  else
    match cl with
    | .HIT => ⟨1, 0, 0⟩
    | .MISS_FILL => ⟨0, 1, 0⟩
    | .MISS_EVICT => ⟨0, 1, 1⟩
    | .NOP => ⟨0, 0, 0⟩

/-- Predicate: every line's `valid` field is boolean (0 or 1), as is the
case in every configuration the program creates. -/
def validBool (lines : List Line) : Prop :=
  ∀ l ∈ lines, l.valid = 0 ∨ l.valid = 1

/-- Invariant `P` holding of the first `numSets` sets of a state. -/
def setsInv (numSets : Nat) (P : List Line → Prop) (cs : CacheState) : Prop :=
  cs.sets.length = numSets ∧ ∀ j, j < numSets → P (cs.sets.getD j [])

instance (E : Nat) (lines : List Line) : Decidable (rankPerm E lines) := by
  unfold rankPerm
  infer_instance

instance (lines : List Line) : Decidable (validBool lines) := by
  unfold validBool
  exact List.decidableBAll _ _

/-! ### Basic bridging lemmas for list access -/

theorem getD_eq_get {α : Type} (l : List α) (d : α) (i : Nat) (h : i < l.length) :
    l.getD i d = l[i] := by
  simp [List.getD_eq_getElem?_getD, List.getElem?_eq_getElem h]

theorem lineAt_eq_get (lines : List Line) (i : Nat) (h : i < lines.length) :
    lineAt lines i = lines[i] :=
  getD_eq_get lines _ i h

theorem getD_set_self {α : Type} (l : List α) (i : Nat) (x d : α)
    (h : i < l.length) : (l.set i x).getD i d = x := by
  rw [getD_eq_get _ _ _ (by simpa using h)]
  simp [List.getElem_set, h]

theorem getD_set_other {α : Type} (l : List α) (i j : Nat) (x d : α)
    (h : i ≠ j) : (l.set i x).getD j d = l.getD j d := by
  simp [List.getD_eq_getElem?_getD, List.getElem?_set_ne h]

theorem set_getD_self {α : Type} (l : List α) (i : Nat) (d : α)
    (h : i < l.length) : l.set i (l.getD i d) = l := by
  apply List.ext_getElem?
  intro n
  by_cases hn : i = n
  · subst hn
    rw [List.getElem?_set_self h, getD_eq_get _ _ _ h, List.getElem?_eq_getElem h]
  · rw [List.getElem?_set_ne hn]

theorem lineAt_set_self (lines : List Line) (i : Nat) (x : Line)
    (h : i < lines.length) : lineAt (lines.set i x) i = x :=
  getD_set_self lines i x _ h

theorem lineAt_set_other (lines : List Line) (i j : Nat) (x : Line)
    (h : i ≠ j) : lineAt (lines.set i x) j = lineAt lines j :=
  getD_set_other lines i j x _ h

theorem lineAt_map (f : Line → Line) (lines : List Line) (i : Nat)
    (h : i < lines.length) :
    lineAt (lines.map f) i = f (lineAt lines i) := by
  rw [lineAt_eq_get _ _ (by simpa using h), lineAt_eq_get _ _ h]
  simp

theorem lineAt_mem (lines : List Line) (i : Nat) (h : i < lines.length) :
    lineAt lines i ∈ lines := by
  rw [lineAt_eq_get _ _ h]
  exact List.getElem_mem h

/-! ### Lemmas about the scanning idiom -/

theorem scan1_eq_none_iff (p : Line → Bool) (lines : List Line) :
    scan1 p lines = none ↔ ∀ l ∈ lines, ¬ p l = true := by
  induction lines with
  | nil => simp [scan1]
  | cons a ls ih =>
    by_cases h : p a
    · simp [scan1, h]
    · simp [scan1, h, ih]

theorem scan1_none_at (p : Line → Bool) (lines : List Line)
    (h : scan1 p lines = none) (j : Nat) (hj : j < lines.length) :
    p (lineAt lines j) = false := by
  have := (scan1_eq_none_iff p lines).mp h (lineAt lines j) (lineAt_mem lines j hj)
  simpa using this

theorem scan1_eq_some (p : Line → Bool) (lines : List Line) (i : Nat)
    (h : scan1 p lines = some i) :
    i < lines.length ∧ p (lineAt lines i) = true ∧
      ∀ j, j < i → p (lineAt lines j) = false := by
  induction lines generalizing i with
  | nil => simp [scan1] at h
  | cons a ls ih =>
    by_cases hp : p a
    · simp [scan1, hp] at h
      subst h
      refine ⟨by simp, by simpa [lineAt] using hp, ?_⟩
      intro j hj
      omega
    · simp [scan1, hp] at h
      obtain ⟨i2, hi2, rfl⟩ := h
      obtain ⟨h1, h2, h3⟩ := ih i2 hi2
      refine ⟨by simpa using h1, by simpa [lineAt] using h2, ?_⟩
      intro j hj
      cases j with
      | zero => simpa [lineAt] using hp
      | succ j2 => simpa [lineAt] using h3 j2 (by omega)

theorem scan1_eq_some_intro (p : Line → Bool) (lines : List Line) (i : Nat)
    (hlen : i < lines.length) (hp : p (lineAt lines i) = true)
    (hmin : ∀ j, j < i → p (lineAt lines j) = false) :
    scan1 p lines = some i := by
  induction lines generalizing i with
  | nil => simp at hlen
  | cons a ls ih =>
    cases i with
    | zero => simp [scan1, show p a = true by simpa [lineAt] using hp]
    | succ i2 =>
      have ha : p a = false := by simpa [lineAt] using hmin 0 (by omega)
      have : scan1 p ls = some i2 := by
        refine ih i2 (by simpa using hlen) (by simpa [lineAt] using hp) ?_
        intro j hj
        simpa [lineAt] using hmin (j + 1) (by omega)
      simp [scan1, ha, this]

theorem scan1_isSome (p : Line → Bool) (lines : List Line) (i : Nat)
    (hlen : i < lines.length) (hp : p (lineAt lines i) = true) :
    ∃ j, scan1 p lines = some j := by
  cases h : scan1 p lines with
  | none =>
    have := scan1_none_at p lines h i hlen
    rw [hp] at this
    cases this
  | some j => exact ⟨j, rfl⟩

theorem scan1_map_congr (p : Line → Bool) (g : Line → Line) (lines : List Line)
    (hg : ∀ l, p (g l) = p l) : scan1 p (lines.map g) = scan1 p lines := by
  induction lines with
  | nil => simp
  | cons a ls ih => simp [scan1, hg a, ih]

/-! ### Lemmas about `touchLine` and `updateLRU` -/

theorem touchLine_valid (prev : Nat) (l : Line) :
    (touchLine prev l).valid = l.valid := by
  unfold touchLine
  split_ifs <;> rfl

theorem touchLine_tag (prev : Nat) (l : Line) :
    (touchLine prev l).tag = l.tag := by
  unfold touchLine
  split_ifs <;> rfl

theorem touchLine_of_invalid (prev : Nat) (l : Line) (h : l.valid ≠ 1) :
    touchLine prev l = l := by
  unfold touchLine
  rw [if_neg h]

theorem touchLine_lru_of_valid (prev : Nat) (l : Line) (h : l.valid = 1) :
    (touchLine prev l).lru = rankMap prev l.lru := by
  unfold touchLine rankMap
  rw [if_pos h]
  split_ifs <;> first | rfl | omega

theorem touchLine_of_lt (prev : Nat) (l : Line) (h : prev < l.lru) :
    touchLine prev l = l := by
  unfold touchLine
  split_ifs with h1 h2 h3 <;> first | rfl | omega

theorem touchLine_zero (l : Line) : touchLine 0 l = l := by
  obtain ⟨v, tg, r⟩ := l
  unfold touchLine
  split_ifs with h1 h2 h3 <;> simp_all

theorem updateLRU_zero (lines : List Line) : updateLRU 0 lines = lines := by
  unfold updateLRU
  rw [List.map_congr_left fun l _ => touchLine_zero l]
  simp

theorem length_updateLRU (prev : Nat) (lines : List Line) :
    (updateLRU prev lines).length = lines.length := by
  simp [updateLRU]

theorem lineAt_updateLRU (prev : Nat) (lines : List Line) (i : Nat)
    (h : i < lines.length) :
    lineAt (updateLRU prev lines) i = touchLine prev (lineAt lines i) :=
  lineAt_map _ lines i h

theorem updateLRU_storageView (prev : Nat) (lines : List Line) :
    (updateLRU prev lines).map storageView = lines.map storageView := by
  unfold updateLRU
  rw [List.map_map]
  exact List.map_congr_left fun l _ => by
    simp [storageView, Function.comp, touchLine_valid, touchLine_tag]

/-! ### The rank permutation produced by one touch -/

theorem rankMap_perm (prev : Nat) :
    ∀ E, prev < E → ((List.range E).map (rankMap prev)).Perm (List.range E) := by
  intro E
  induction E with
  | zero => omega
  | succ n ih =>
    intro hlt
    by_cases hn : prev = n
    · subst hn
      have h1 : (List.range prev).map (rankMap prev) =
          (List.range prev).map Nat.succ := by
        apply List.map_congr_left
        intro a ha
        have := List.mem_range.mp ha
        unfold rankMap
        split_ifs <;> omega
      have key : (List.range (prev + 1)).map (rankMap prev) =
          (List.range prev).map Nat.succ ++ [0] := by
        rw [List.range_succ, List.map_append, h1]
        simp [rankMap]
      rw [key, List.range_succ_eq_map prev]
      exact List.perm_append_singleton 0 _
    · have hp : prev < n := by omega
      have key : (List.range (n + 1)).map (rankMap prev) =
          (List.range n).map (rankMap prev) ++ [n] := by
        rw [List.range_succ, List.map_append]
        have h2 : rankMap prev n = n := by
          unfold rankMap
          split_ifs <;> omega
        simp [h2]
      rw [key, List.range_succ n]
      exact (ih hp).append_right [n]

theorem rankMap_perm_of (ranks : List Nat) (k prev : Nat)
    (hperm : ranks.Perm (List.range k)) (hprev : prev < k) :
    (ranks.map (rankMap prev)).Perm (List.range k) :=
  (hperm.map (rankMap prev)).trans (rankMap_perm prev k hprev)

/-! ### Take/set interaction helpers -/

theorem take_set_eq {α : Type} : ∀ (l : List α) (k : Nat) (x : α),
    (l.set k x).take k = l.take k
  | [], _, _ => by simp
  | _ :: _, 0, _ => by simp
  | a :: ls, k + 1, x => by
    simp only [List.set, List.take]
    rw [take_set_eq ls k x]

theorem take_succ_set {α : Type} : ∀ (l : List α) (k : Nat) (x : α),
    k < l.length → (l.set k x).take (k + 1) = l.take k ++ [x]
  | [], k, x, h => by simp at h
  | a :: ls, 0, x, h => by simp
  | a :: ls, k + 1, x, h => by
    simp only [List.set, List.take, List.cons_append]
    rw [take_succ_set ls k x (by simpa using h)]

theorem set_replicate_self {α : Type} : ∀ (n i : Nat) (x : α),
    (List.replicate n x).set i x = List.replicate n x
  | 0, _, _ => by simp
  | n + 1, 0, x => by simp [List.replicate]
  | n + 1, i + 1, x => by
    simp only [List.replicate, List.set]
    rw [set_replicate_self n i x]

/-! ### Consequences of the `goodSet` invariant -/

theorem goodSet_rankPerm (E : Nat) (lines : List Line) (h : goodSet E lines) :
    rankPerm E lines := by
  obtain ⟨k, hk, hlen, hvalid, hsuffix, hperm⟩ := h
  unfold rankPerm
  have hdrop : (lines.drop k).map Line.lru = List.range' k (E - k) := by
    apply List.ext_getElem
    · simp [hlen]
    · intro i h1 h2
      simp only [List.getElem_map, List.getElem_drop]
      have hi : k + i < E := by
        simp [hlen] at h1
        omega
      rw [← lineAt_eq_get lines (k + i) (by omega)]
      rw [hsuffix (k + i) hi (by omega)]
      simp
  have hsplit : lines.map Line.lru =
      (lines.take k).map Line.lru ++ List.range' k (E - k) := by
    rw [← hdrop, ← List.map_append, List.take_append_drop]
  have hr : List.range k ++ List.range' k (E - k) = List.range E := by
    rw [List.range_eq_range' k, List.range_eq_range' E]
    have h0 : (0 : Nat) + k = k := by omega
    have := List.range'_append_1 0 k (E - k)
    rw [h0] at this
    rw [this]
    congr 1
    omega
  rw [hsplit, ← hr]
  exact hperm.append_right _

theorem goodSet_take_valid (E k : Nat) (lines : List Line)
    (hlen : lines.length = E)
    (hvalid : ∀ i, i < E → (lineAt lines i).valid = if i < k then 1 else 0)
    (hk : k ≤ E) :
    ∀ l ∈ lines.take k, l.valid = 1 := by
  intro l hl
  obtain ⟨i, hi, hget⟩ := List.getElem_of_mem hl
  have hik : i < k := by
    have := List.length_take k lines
    omega
  have hilen : i < lines.length := by omega
  rw [← hget, List.getElem_take, ← lineAt_eq_get _ _ hilen]
  have := hvalid i (by omega)
  rwa [if_pos hik] at this

theorem goodSet_take_lru_lt (k : Nat) (lines : List Line)
    (hperm : ((lines.take k).map Line.lru).Perm (List.range k)) :
    ∀ l ∈ lines.take k, l.lru < k := by
  intro l hl
  have : l.lru ∈ (lines.take k).map Line.lru :=
    List.mem_map.mpr ⟨l, hl, rfl⟩
  exact List.mem_range.mp (hperm.mem_iff.mp this)

theorem lineAt_mem_take (lines : List Line) (i k : Nat) (hik : i < k)
    (hlen : i < lines.length) : lineAt lines i ∈ lines.take k := by
  have hlt : i < (lines.take k).length := by
    simp [List.length_take]
    omega
  have heq : (lines.take k)[i] = lines[i] := List.getElem_take lines
  rw [lineAt_eq_get _ _ hlen, ← heq]
  exact List.getElem_mem hlt

/-! ### Preservation of `goodSet` by one touch and by the operations -/

theorem goodSet_updateLRU (E : Nat) (lines : List Line) (k prev : Nat)
    (hk : k ≤ E) (hlen : lines.length = E)
    (hvalid : ∀ i, i < E → (lineAt lines i).valid = if i < k then 1 else 0)
    (hsuffix : ∀ i, i < E → k ≤ i → (lineAt lines i).lru = i)
    (hperm : ((lines.take k).map Line.lru).Perm (List.range k))
    (hprev : prev < k) :
    goodSet E (updateLRU prev lines) := by
  refine ⟨k, hk, by simp [length_updateLRU, hlen], ?_, ?_, ?_⟩
  · intro i hi
    rw [lineAt_updateLRU prev lines i (by omega), touchLine_valid]
    exact hvalid i hi
  · intro i hi hki
    rw [lineAt_updateLRU prev lines i (by omega)]
    have hv := hvalid i hi
    rw [if_neg (by omega)] at hv
    rw [touchLine_of_invalid prev _ (by simp [hv])]
    exact hsuffix i hi hki
  · unfold updateLRU
    rw [← List.map_take]
    have heq : ((lines.take k).map (touchLine prev)).map Line.lru =
        ((lines.take k).map Line.lru).map (rankMap prev) := by
      rw [List.map_map, List.map_map]
      apply List.map_congr_left
      intro l hl
      simp only [Function.comp]
      exact touchLine_lru_of_valid prev l
        (goodSet_take_valid E k lines hlen hvalid hk l hl)
    rw [heq]
    exact rankMap_perm_of _ k prev hperm hprev

theorem goodSet_full_install (E : Nat) (lines : List Line) (i : Nat) (nl : Line)
    (hlen : lines.length = E)
    (hvalid : ∀ i2, i2 < E → (lineAt lines i2).valid = 1)
    (hperm : (lines.map Line.lru).Perm (List.range E))
    (hilen : i < E) (hnlv : nl.valid = 1)
    (hnll : nl.lru = (lineAt lines i).lru) :
    goodSet E (updateLRU (lineAt (lines.set i nl) i).lru (lines.set i nl)) := by
  have hlen2 : (lines.set i nl).length = E := by simp [hlen]
  have hself : lineAt (lines.set i nl) i = nl :=
    lineAt_set_self lines i nl (by omega)
  have hlru : (lineAt lines i).lru < E := by
    have hmem : (lineAt lines i).lru ∈ lines.map Line.lru :=
      List.mem_map.mpr ⟨lineAt lines i, lineAt_mem lines i (by omega), rfl⟩
    exact List.mem_range.mp (hperm.mem_iff.mp hmem)
  have hperm2 : (((lines.set i nl).take E).map Line.lru).Perm (List.range E) := by
    have htake : (lines.set i nl).take E = lines.set i nl := by
      rw [← hlen2]
      exact List.take_length _
    rw [htake]
    have hmapset : (lines.set i nl).map Line.lru =
        (lines.map Line.lru).set i nl.lru := by simp
    have hgd : (lines.map Line.lru).getD i 0 = nl.lru := by
      rw [getD_eq_get _ _ _ (by simp [hlen]; omega)]
      rw [List.getElem_map, ← lineAt_eq_get _ _ (by omega), ← hnll]
    rw [hmapset, ← hgd, set_getD_self _ _ _ (by simp [hlen]; omega)]
    exact hperm
  refine goodSet_updateLRU E (lines.set i nl) E ((lineAt (lines.set i nl) i).lru)
    (le_refl E) hlen2 ?_ ?_ ?_ ?_
  · intro i2 hi2
    rw [if_pos hi2]
    by_cases hii : i = i2
    · subst hii
      rw [hself, hnlv]
    · rw [lineAt_set_other lines i i2 nl hii]
      exact hvalid i2 hi2
  · intro i2 hi2 hEi
    omega
  · have htake : (lines.set i nl).take E = lines.set i nl := by
      rw [← hlen2]
      exact List.take_length _
    rw [htake]
    have htake2 : ((lines.set i nl).take E).map Line.lru =
        ((lines.set i nl)).map Line.lru := by rw [htake]
    have := hperm2
    rwa [htake] at this
  · rw [hself, hnll]
    exact hlru

theorem goodSet_operationC (op : Char) (E t : Nat) (lines : List Line)
    (c : Tally) (h : goodSet E lines) :
    goodSet E (operationC op E t lines c).1 := by
  obtain ⟨k, hk, hlen, hvalid, hsuffix, hperm⟩ := h
  unfold operationC
  cases hh : findHit t lines with
  | some i =>
    obtain ⟨hilen, hp, -⟩ := scan1_eq_some _ _ _ hh
    have hv1 : (lineAt lines i).valid = 1 := by
      simp [hitPred] at hp
      exact hp.1
    have hik : i < k := by
      by_contra hcon
      have := hvalid i (by omega)
      rw [if_neg (by omega)] at this
      omega
    have hmem : lineAt lines i ∈ lines.take k :=
      lineAt_mem_take lines i k hik (by omega)
    have hprev : (lineAt lines i).lru < k :=
      goodSet_take_lru_lt k lines hperm _ hmem
    show goodSet E (hitUpd lines i)
    show goodSet E (updateLRU (lineAt lines i).lru lines)
    exact goodSet_updateLRU E lines k _ hk hlen hvalid hsuffix hperm hprev
  | none =>
    cases hf : findFree lines with
    | some i =>
      obtain ⟨hilen, hp, hmin⟩ := scan1_eq_some _ _ _ hf
      have hv0 : (lineAt lines i).valid = 0 := by
        simp [freePred] at hp
        exact hp
      have hik : k ≤ i := by
        by_contra hcon
        have := hvalid i (by omega)
        rw [if_pos (by omega)] at this
        omega
      have hik2 : i ≤ k := by
        by_contra hcon
        have h2 := hvalid k (by omega)
        rw [if_neg (by omega)] at h2
        have h1 := hmin k (by omega)
        simp [freePred, h2] at h1
      obtain rfl : k = i := by omega
      have hkE : k < E := by omega
      show goodSet E (missUpd t lines k)
      simp only [missUpd]
      have hself : lineAt (lines.set k { lineAt lines k with valid := 1, tag := t }) k
          = { lineAt lines k with valid := 1, tag := t } :=
        lineAt_set_self lines k _ (by omega)
      rw [hself]
      have hlruk : (lineAt lines k).lru = k := hsuffix k hkE (le_refl k)
      have hgood2 : goodSet E (updateLRU k
          (lines.set k { lineAt lines k with valid := 1, tag := t })) := by
        refine goodSet_updateLRU E _ (k + 1) k (by omega) (by simp [hlen]) ?_ ?_ ?_
          (by omega)
        · intro i2 hi2
          by_cases hii : k = i2
          · subst hii
            rw [hself]
            rw [if_pos (by omega)]
          · rw [lineAt_set_other lines k i2 _ hii]
            have := hvalid i2 hi2
            by_cases hlt : i2 < k
            · rw [if_pos (by omega)]
              rwa [if_pos hlt] at this
            · rw [if_neg (by omega)]
              rwa [if_neg hlt] at this
        · intro i2 hi2 hki
          rw [lineAt_set_other lines k i2 _ (by omega)]
          exact hsuffix i2 hi2 (by omega)
        · rw [take_succ_set lines k _ (by omega), List.map_append]
          have hnl : [{ lineAt lines k with valid := 1, tag := t }].map Line.lru
              = [k] := by simp [hlruk]
          rw [hnl, List.range_succ]
          exact hperm.append_right [k]
      simpa [hlruk] using hgood2
    | none =>
      cases hv : findVictim E lines with
      | some i =>
        obtain ⟨hilen, hp, -⟩ := scan1_eq_some _ _ _ hv
        obtain rfl : E = k := by
          by_contra hcon
          have hklt : k < E := by omega
          have h2 := hvalid k (by omega)
          rw [if_neg (by omega)] at h2
          have h1 := scan1_none_at freePred lines hf k (by omega)
          simp [freePred, h2] at h1
        have hvfull : ∀ i2, i2 < E → (lineAt lines i2).valid = 1 := by
          intro i2 hi2
          have := hvalid i2 hi2
          rwa [if_pos hi2] at this
        have hpermfull : (lines.map Line.lru).Perm (List.range E) := by
          have htake : lines.take E = lines := by
            rw [← hlen]
            exact List.take_length _
          rwa [htake] at hperm
        have hv1 : (lineAt lines i).valid = 1 := hvfull i (by omega)
        show goodSet E (evictUpd op t lines i)
        simp only [evictUpd]
        by_cases hop : op = 'L'
        · rw [if_pos hop]
          exact goodSet_full_install E lines i _ hlen hvfull hpermfull
            (by omega) rfl rfl
        · rw [if_neg hop]
          exact goodSet_full_install E lines i _ hlen hvfull hpermfull
            (by omega) hv1 rfl
      | none =>
        exact ⟨k, hk, hlen, hvalid, hsuffix, hperm⟩

/-! ### Preservation of `tagsOnce` by the operations -/

theorem tagsOnce_updateLRU (prev : Nat) (lines : List Line)
    (h : tagsOnce lines) : tagsOnce (updateLRU prev lines) := by
  intro i j hi hj hij hvi hvj
  rw [length_updateLRU] at hi hj
  rw [lineAt_updateLRU _ _ _ hi] at hvi ⊢
  rw [lineAt_updateLRU _ _ _ hj] at hvj ⊢
  rw [touchLine_valid] at hvi hvj
  rw [touchLine_tag, touchLine_tag]
  exact h i j hi hj hij hvi hvj

theorem tagsOnce_install (lines : List Line) (i t : Nat) (nl : Line)
    (h : tagsOnce lines) (hh : findHit t lines = none)
    (hilen : i < lines.length) (hnl : nl.tag = t) :
    tagsOnce (lines.set i nl) := by
  intro p q hp hq hpq hvp hvq
  rw [List.length_set] at hp hq
  have hfresh : ∀ r, r < lines.length → (lineAt lines r).valid = 1 →
      (lineAt lines r).tag ≠ t := by
    intro r hr hv
    have := scan1_none_at (hitPred t) lines hh r hr
    simp [hitPred, hv] at this
    exact this
  by_cases hpi : i = p
  · subst hpi
    have hqi : i ≠ q := by omega
    rw [lineAt_set_self _ _ _ hp]
    rw [lineAt_set_other _ _ _ _ hqi] at hvq ⊢
    rw [hnl]
    exact fun heq => hfresh q hq hvq heq.symm
  · by_cases hqi : i = q
    · subst hqi
      rw [lineAt_set_self _ _ _ hq]
      rw [lineAt_set_other _ _ _ _ hpi] at hvp ⊢
      rw [hnl]
      exact hfresh p hp hvp
    · rw [lineAt_set_other _ _ _ _ hpi] at hvp ⊢
      rw [lineAt_set_other _ _ _ _ hqi] at hvq ⊢
      exact h p q hp hq hpq hvp hvq

theorem tagsOnce_operationC (op : Char) (E t : Nat) (lines : List Line)
    (c : Tally) (h : tagsOnce lines) :
    tagsOnce (operationC op E t lines c).1 := by
  unfold operationC
  cases hh : findHit t lines with
  | some i =>
    exact tagsOnce_updateLRU _ _ h
  | none =>
    cases hf : findFree lines with
    | some i =>
      obtain ⟨hilen, -, -⟩ := scan1_eq_some _ _ _ hf
      show tagsOnce (missUpd t lines i)
      simp only [missUpd]
      exact tagsOnce_updateLRU _ _ (tagsOnce_install lines i t _ h hh hilen rfl)
    | none =>
      cases hv : findVictim E lines with
      | some i =>
        obtain ⟨hilen, -, -⟩ := scan1_eq_some _ _ _ hv
        show tagsOnce (evictUpd op t lines i)
        simp only [evictUpd]
        by_cases hop : op = 'L'
        · rw [if_pos hop]
          exact tagsOnce_updateLRU _ _ (tagsOnce_install lines i t _ h hh hilen rfl)
        · rw [if_neg hop]
          exact tagsOnce_updateLRU _ _ (tagsOnce_install lines i t _ h hh hilen rfl)
      | none =>
        exact h

/-! ### The initial cache -/

theorem lineAt_initSet (E i : Nat) (h : i < E) :
    lineAt (initSet E) i = initLine i := by
  unfold initSet
  rw [lineAt_eq_get _ _ (by simpa using h)]
  simp

theorem goodSet_initSet (E : Nat) : goodSet E (initSet E) := by
  refine ⟨0, by omega, by simp [initSet], ?_, ?_, by simp⟩
  · intro i hi
    rw [lineAt_initSet E i hi]
    simp [initLine]
  · intro i hi _
    rw [lineAt_initSet E i hi]
    rfl

theorem tagsOnce_initSet (E : Nat) : tagsOnce (initSet E) := by
  intro i j hi hj hij hvi
  exfalso
  have hiE : i < E := by simpa [initSet] using hi
  rw [lineAt_initSet E i hiE] at hvi
  simp [initLine] at hvi

theorem setsInv_initState (numSets E : Nat) (P : List Line → Prop)
    (hP : P (initSet E)) : setsInv numSets P (initState numSets E) := by
  refine ⟨by simp [initState], ?_⟩
  intro j hj
  have : (initState numSets E).sets.getD j [] = initSet E := by
    unfold initState
    rw [getD_eq_get _ _ _ (by simpa using hj)]
    simp
  rw [this]
  exact hP

/-! ### Invariants through the dispatch loop -/

theorem setsInv_stepEvent (numSets E : Nat) (P : List Line → Prop)
    (hP : ∀ op t c lines, P lines → P (operationC op E t lines c).1)
    (op : Char) (setIdx t : Nat) (cs : CacheState)
    (h : setsInv numSets P cs) :
    setsInv numSets P (stepEvent E op setIdx t cs).1 := by
  have happly : ∀ op2, setsInv numSets P (applyOp op2 E setIdx t cs) := by
    intro op2
    obtain ⟨hlen, hall⟩ := h
    refine ⟨by simp [applyOp, hlen], ?_⟩
    intro j hj
    show ((cs.sets.set setIdx
      (operationC op2 E t (cs.sets.getD setIdx []) cs.counts).1).getD j []) |> P
    by_cases hji : setIdx = j
    · subst hji
      rw [getD_set_self _ _ _ _ (by omega)]
      exact hP _ _ _ _ (hall setIdx hj)
    · rw [getD_set_other _ _ _ _ _ hji]
      exact hall j hj
  unfold stepEvent
  by_cases h1 : op = 'L'
  · rw [if_pos h1]
    exact happly 'L'
  · rw [if_neg h1]
    by_cases h2 : op = 'S'
    · rw [if_pos h2]
      exact happly 'S'
    · rw [if_neg h2]
      by_cases h3 : op = 'M'
      · rw [if_pos h3]
        exact happly 'M'
      · rw [if_neg h3]
        by_cases h4 : op = 'I'
        · rw [if_pos h4]
          exact h
        · rw [if_neg h4]
          exact h

theorem setsInv_runEvents (numSets E : Nat) (P : List Line → Prop)
    (hP : ∀ op t c lines, P lines → P (operationC op E t lines c).1)
    (evs : List (Char × Nat × Nat)) :
    ∀ cs, setsInv numSets P cs → setsInv numSets P (runEvents E evs cs) := by
  induction evs with
  | nil =>
    intro cs h
    exact h
  | cons e rest ih =>
    intro cs h
    have hstep : runEvents E (e :: rest) cs =
        runEvents E rest (stepEvent E e.1 e.2.1 e.2.2 cs).1 := rfl
    rw [hstep]
    exact ih _ (setsInv_stepEvent numSets E P hP e.1 e.2.1 e.2.2 cs h)

/-! ### Classification lemmas -/

theorem getD_eq_of_length_le {α : Type} (l : List α) (d : α) (n : Nat)
    (h : l.length ≤ n) : l.getD n d = d := by
  rw [List.getD_eq_getElem?_getD, List.getElem?_eq_none h]
  rfl

theorem rankPerm_length (E : Nat) (lines : List Line) (h : rankPerm E lines) :
    lines.length = E := by
  have := h.length_eq
  simpa using this

theorem rankPerm_victim (E : Nat) (lines : List Line) (hperm : rankPerm E lines)
    (hE : 1 ≤ E) : ∃ j, findVictim E lines = some j := by
  have hmem : E - 1 ∈ lines.map Line.lru :=
    hperm.mem_iff.mpr (List.mem_range.mpr (by omega))
  obtain ⟨l, hl, hlru⟩ := List.mem_map.mp hmem
  obtain ⟨i, hi, rfl⟩ := List.getElem_of_mem hl
  refine scan1_isSome (victimPred E) lines i hi ?_
  rw [lineAt_eq_get _ _ hi]
  simp [victimPred, hlru]

theorem classify_ne_nop (E t : Nat) (lines : List Line)
    (hperm : rankPerm E lines) (hE : 1 ≤ E) :
    classify E t lines ≠ .NOP := by
  obtain ⟨j, hj⟩ := rankPerm_victim E lines hperm hE
  unfold classify
  cases hh : findHit t lines with
  | some i => simp
  | none =>
    cases hf : findFree lines with
    | some i => simp
    | none =>
      rw [hj]
      simp

theorem findHit_updateLRU (t prev : Nat) (lines : List Line) :
    findHit t (updateLRU prev lines) = findHit t lines :=
  scan1_map_congr _ _ lines fun l => by
    simp [hitPred, touchLine_valid, touchLine_tag]

theorem findHit_set_install (t : Nat) (lines : List Line) (i : Nat) (nl : Line)
    (hh : findHit t lines = none) (hi : i < lines.length)
    (hv : nl.valid = 1) (ht : nl.tag = t) :
    findHit t (lines.set i nl) = some i := by
  apply scan1_eq_some_intro
  · simpa using hi
  · rw [lineAt_set_self _ _ _ hi]
    simp [hitPred, hv, ht]
  · intro j hj
    rw [lineAt_set_other _ _ _ _ (by omega)]
    exact scan1_none_at _ _ hh j (by omega)

theorem touchLine_self_lru (prev : Nat) (l : Line) (hv : l.valid = 1)
    (hl : l.lru = prev) : (touchLine prev l).lru = 0 := by
  rw [touchLine_lru_of_valid _ _ hv, hl]
  simp [rankMap]

theorem hitUpd_of_lru_zero (lines : List Line) (i : Nat)
    (hl0 : (lineAt lines i).lru = 0) : hitUpd lines i = lines := by
  unfold hitUpd
  rw [hl0, updateLRU_zero]

theorem tallyAdd_zero (c : Tally) : tallyAdd c ⟨0, 0, 0⟩ = c := by
  cases c
  simp [tallyAdd]

theorem operationC_hit_branch (op : Char) (E t : Nat) (lines : List Line)
    (c : Tally) (i : Nat) (hh : findHit t lines = some i) :
    operationC op E t lines c = (hitUpd lines i,
      ⟨c.hits + (if op = 'M' then 2 else 1), c.misses, c.evictions⟩) := by
  unfold operationC
  rw [hh]

theorem operationC_miss_branch (op : Char) (E t : Nat) (lines : List Line)
    (c : Tally) (i : Nat) (hh : findHit t lines = none)
    (hf : findFree lines = some i) :
    operationC op E t lines c = (missUpd t lines i,
      ⟨c.hits + (if op = 'M' then 1 else 0), c.misses + 1, c.evictions⟩) := by
  unfold operationC
  rw [hh, hf]

theorem operationC_evict_branch (op : Char) (E t : Nat) (lines : List Line)
    (c : Tally) (i : Nat) (hh : findHit t lines = none)
    (hf : findFree lines = none) (hv : findVictim E lines = some i) :
    operationC op E t lines c = (evictUpd op t lines i,
      ⟨c.hits + (if op = 'M' then 1 else 0), c.misses + 1,
        c.evictions + 1⟩) := by
  unfold operationC
  rw [hh, hf, hv]

theorem operationC_nop_branch (op : Char) (E t : Nat) (lines : List Line)
    (c : Tally) (hh : findHit t lines = none) (hf : findFree lines = none)
    (hv : findVictim E lines = none) :
    operationC op E t lines c = (lines, c) := by
  unfold operationC
  rw [hh, hf, hv]

theorem classify_hit (E t : Nat) (lines : List Line) (i : Nat)
    (hh : findHit t lines = some i) : classify E t lines = .HIT := by
  unfold classify
  rw [hh]

theorem classify_miss (E t : Nat) (lines : List Line) (i : Nat)
    (hh : findHit t lines = none) (hf : findFree lines = some i) :
    classify E t lines = .MISS_FILL := by
  unfold classify
  rw [hh, hf]

theorem classify_evict (E t : Nat) (lines : List Line) (i : Nat)
    (hh : findHit t lines = none) (hf : findFree lines = none)
    (hv : findVictim E lines = some i) :
    classify E t lines = .MISS_EVICT := by
  unfold classify
  rw [hh, hf, hv]

theorem evictUpd_L (t : Nat) (lines : List Line) (i : Nat) :
    evictUpd 'L' t lines i =
      updateLRU (lineAt (lines.set i { lineAt lines i with valid := 1, tag := t }) i).lru
        (lines.set i { lineAt lines i with valid := 1, tag := t }) := by
  simp [evictUpd]

theorem evictUpd_not_L (op : Char) (t : Nat) (lines : List Line) (i : Nat)
    (hop : op ≠ 'L') :
    evictUpd op t lines i =
      updateLRU (lineAt (lines.set i { lineAt lines i with tag := t }) i).lru
        (lines.set i { lineAt lines i with tag := t }) := by
  simp [evictUpd, hop]

theorem classify_after_L (E t : Nat) (lines : List Line) (c : Tally)
    (hperm : rankPerm E lines) (hE : 1 ≤ E) :
    classify E t (operationL E t lines c).1 = .HIT := by
  unfold operationL
  cases hh : findHit t lines with
  | some i =>
    rw [operationC_hit_branch 'L' E t lines c i hh]
    apply classify_hit E t _ i
    show findHit t (hitUpd lines i) = some i
    unfold hitUpd
    rw [findHit_updateLRU]
    exact hh
  | none =>
    cases hf : findFree lines with
    | some i =>
      rw [operationC_miss_branch 'L' E t lines c i hh hf]
      obtain ⟨hilen, -, -⟩ := scan1_eq_some _ _ _ hf
      apply classify_hit E t _ i
      show findHit t (missUpd t lines i) = some i
      simp only [missUpd]
      rw [findHit_updateLRU]
      exact findHit_set_install t lines i _ hh hilen rfl rfl
    | none =>
      cases hv : findVictim E lines with
      | some i =>
        rw [operationC_evict_branch 'L' E t lines c i hh hf hv]
        obtain ⟨hilen, -, -⟩ := scan1_eq_some _ _ _ hv
        apply classify_hit E t _ i
        show findHit t (evictUpd 'L' t lines i) = some i
        rw [evictUpd_L, findHit_updateLRU]
        exact findHit_set_install t lines i _ hh hilen rfl rfl
      | none =>
        exfalso
        obtain ⟨j, hj⟩ := rankPerm_victim E lines hperm hE
        rw [hv] at hj
        cases hj

theorem classify_three_cases (E t : Nat) (lines : List Line)
    (hperm : rankPerm E lines) (hE : 1 ≤ E) :
    classify E t lines = .HIT ∨ classify E t lines = .MISS_FILL ∨
      classify E t lines = .MISS_EVICT := by
  have hne := classify_ne_nop E t lines hperm hE
  cases h : classify E t lines
  · exact Or.inl rfl
  · exact Or.inr (Or.inl rfl)
  · exact Or.inr (Or.inr rfl)
  · exact absurd h hne

/-! ### A Modify access is a Load followed by a Store -/

theorem ifop_M {α : Type} (a b : α) : (if ('M' : Char) = 'M' then a else b) = a :=
  if_pos rfl

theorem ifop_L {α : Type} (a b : α) : (if ('L' : Char) = 'M' then a else b) = b :=
  if_neg (by decide)

theorem ifop_S {α : Type} (a b : α) : (if ('S' : Char) = 'M' then a else b) = b :=
  if_neg (by decide)

theorem operationM_eq_LS (E t : Nat) (lines : List Line) (c : Tally)
    (hvb : validBool lines) :
    operationM E t lines c =
      operationS E t (operationL E t lines c).1 (operationL E t lines c).2 := by
  cases hh : findHit t lines with
  | some i =>
    obtain ⟨hilen, hp, -⟩ := scan1_eq_some _ _ _ hh
    have hv1 : (lineAt lines i).valid = 1 := by
      simp [hitPred] at hp
      exact hp.1
    have hL : operationL E t lines c =
        (hitUpd lines i, ⟨c.hits + 1, c.misses, c.evictions⟩) := by
      unfold operationL
      rw [operationC_hit_branch 'L' E t lines c i hh, ifop_L]
    have hfind2 : findHit t (hitUpd lines i) = some i := by
      unfold hitUpd
      rw [findHit_updateLRU]
      exact hh
    have hlru2 : (lineAt (hitUpd lines i) i).lru = 0 := by
      unfold hitUpd
      rw [lineAt_updateLRU _ _ _ hilen]
      exact touchLine_self_lru _ _ hv1 rfl
    have hS : operationS E t (hitUpd lines i) ⟨c.hits + 1, c.misses, c.evictions⟩ =
        (hitUpd lines i, ⟨c.hits + 1 + 1, c.misses, c.evictions⟩) := by
      unfold operationS
      rw [operationC_hit_branch 'S' E t _ _ i hfind2,
        hitUpd_of_lru_zero _ i hlru2, ifop_S]
    calc operationM E t lines c
        = (hitUpd lines i, ⟨c.hits + 2, c.misses, c.evictions⟩) := by
          unfold operationM
          rw [operationC_hit_branch 'M' E t lines c i hh, ifop_M]
      _ = (hitUpd lines i, ⟨c.hits + 1 + 1, c.misses, c.evictions⟩) := by simp
      _ = operationS E t (hitUpd lines i) ⟨c.hits + 1, c.misses, c.evictions⟩ :=
          hS.symm
      _ = operationS E t (operationL E t lines c).1 (operationL E t lines c).2 := by
          rw [hL]
  | none =>
    cases hf : findFree lines with
    | some i =>
      obtain ⟨hilen, hp, -⟩ := scan1_eq_some _ _ _ hf
      have hL : operationL E t lines c =
          (missUpd t lines i, ⟨c.hits + 0, c.misses + 1, c.evictions⟩) := by
        unfold operationL
        rw [operationC_miss_branch 'L' E t lines c i hh hf, ifop_L]
      have hfind2 : findHit t (missUpd t lines i) = some i := by
        simp only [missUpd]
        rw [findHit_updateLRU]
        exact findHit_set_install t lines i _ hh hilen rfl rfl
      have hlru2 : (lineAt (missUpd t lines i) i).lru = 0 := by
        simp only [missUpd]
        rw [lineAt_updateLRU _ _ _ (by simpa using hilen)]
        rw [lineAt_set_self _ _ _ hilen]
        exact touchLine_self_lru _ _ rfl rfl
      have hS : operationS E t (missUpd t lines i)
          ⟨c.hits + 0, c.misses + 1, c.evictions⟩ =
          (missUpd t lines i, ⟨c.hits + 0 + 1, c.misses + 1, c.evictions⟩) := by
        unfold operationS
        rw [operationC_hit_branch 'S' E t _ _ i hfind2,
          hitUpd_of_lru_zero _ i hlru2, ifop_S]
        simp
      calc operationM E t lines c
          = (missUpd t lines i, ⟨c.hits + 1, c.misses + 1, c.evictions⟩) := by
            unfold operationM
            rw [operationC_miss_branch 'M' E t lines c i hh hf, ifop_M]
        _ = (missUpd t lines i, ⟨c.hits + 0 + 1, c.misses + 1, c.evictions⟩) := by
            simp
        _ = operationS E t (missUpd t lines i)
              ⟨c.hits + 0, c.misses + 1, c.evictions⟩ := hS.symm
        _ = operationS E t (operationL E t lines c).1 (operationL E t lines c).2 := by
            rw [hL]
    | none =>
      cases hv : findVictim E lines with
      | some i =>
        obtain ⟨hilen, hp, -⟩ := scan1_eq_some _ _ _ hv
        have hvne0 : ¬ (lineAt lines i).valid = 0 := by
          have := scan1_none_at freePred lines hf i hilen
          simpa [freePred] using this
        have hv1 : (lineAt lines i).valid = 1 := by
          rcases hvb (lineAt lines i) (lineAt_mem lines i hilen) with h0 | h1
          · exact absurd h0 hvne0
          · exact h1
        have hrec : ({ lineAt lines i with valid := 1, tag := t } : Line) =
            { lineAt lines i with tag := t } := by
          rw [← hv1]
        have hEq : evictUpd 'M' t lines i = evictUpd 'L' t lines i := by
          rw [evictUpd_L, evictUpd_not_L 'M' t lines i (by decide), hrec]
        have hL : operationL E t lines c =
            (evictUpd 'L' t lines i,
              ⟨c.hits + 0, c.misses + 1, c.evictions + 1⟩) := by
          unfold operationL
          rw [operationC_evict_branch 'L' E t lines c i hh hf hv, ifop_L]
        have hfind2 : findHit t (evictUpd 'L' t lines i) = some i := by
          rw [evictUpd_L, findHit_updateLRU]
          exact findHit_set_install t lines i _ hh hilen rfl rfl
        have hlru2 : (lineAt (evictUpd 'L' t lines i) i).lru = 0 := by
          rw [evictUpd_L]
          rw [lineAt_updateLRU _ _ _ (by simpa using hilen)]
          rw [lineAt_set_self _ _ _ hilen]
          exact touchLine_self_lru _ _ rfl rfl
        have hS : operationS E t (evictUpd 'L' t lines i)
            ⟨c.hits + 0, c.misses + 1, c.evictions + 1⟩ =
            (evictUpd 'L' t lines i,
              ⟨c.hits + 0 + 1, c.misses + 1, c.evictions + 1⟩) := by
          unfold operationS
          rw [operationC_hit_branch 'S' E t _ _ i hfind2,
            hitUpd_of_lru_zero _ i hlru2, ifop_S]
          simp
        calc operationM E t lines c
            = (evictUpd 'M' t lines i,
                ⟨c.hits + 1, c.misses + 1, c.evictions + 1⟩) := by
              unfold operationM
              rw [operationC_evict_branch 'M' E t lines c i hh hf hv, ifop_M]
          _ = (evictUpd 'L' t lines i,
                ⟨c.hits + 0 + 1, c.misses + 1, c.evictions + 1⟩) := by
              rw [hEq]
          _ = operationS E t (evictUpd 'L' t lines i)
                ⟨c.hits + 0, c.misses + 1, c.evictions + 1⟩ := hS.symm
          _ = operationS E t (operationL E t lines c).1
                (operationL E t lines c).2 := by rw [hL]
      | none =>
        have hM := operationC_nop_branch 'M' E t lines c hh hf hv
        have hL := operationC_nop_branch 'L' E t lines c hh hf hv
        have hS := operationC_nop_branch 'S' E t lines c hh hf hv
        calc operationM E t lines c = (lines, c) := hM
          _ = operationS E t lines c := hS.symm
          _ = operationS E t (operationL E t lines c).1
              (operationL E t lines c).2 := by
            rw [show operationL E t lines c = (lines, c) from hL]

/-! ### Shapes of one dispatch step -/

theorem stepEvent_L (E setIdx t : Nat) (cs : CacheState) :
    stepEvent E 'L' setIdx t cs = (applyOp 'L' E setIdx t cs, none) := by
  unfold stepEvent
  rw [if_pos rfl]

theorem stepEvent_S (E setIdx t : Nat) (cs : CacheState) :
    stepEvent E 'S' setIdx t cs = (applyOp 'S' E setIdx t cs, none) := by
  unfold stepEvent
  rw [if_neg (by decide), if_pos rfl]

theorem stepEvent_M (E setIdx t : Nat) (cs : CacheState) :
    stepEvent E 'M' setIdx t cs = (applyOp 'M' E setIdx t cs, none) := by
  unfold stepEvent
  rw [if_neg (by decide), if_neg (by decide), if_pos rfl]

theorem stepEvent_I (E setIdx t : Nat) (cs : CacheState) :
    stepEvent E 'I' setIdx t cs = (cs, none) := by
  unfold stepEvent
  rw [if_neg (by decide), if_neg (by decide), if_neg (by decide), if_pos rfl]

theorem applyOp_nop_of_out_of_range (op : Char) (E setIdx t : Nat)
    (cs : CacheState) (h : cs.sets.length ≤ setIdx) :
    applyOp op E setIdx t cs = cs := by
  have hg0 : cs.sets.getD setIdx [] = [] := getD_eq_of_length_le _ _ _ h
  unfold applyOp
  rw [hg0, operationC_nop_branch op E t [] cs.counts rfl rfl rfl]
  show (⟨cs.sets.set setIdx [], cs.counts⟩ : CacheState) = cs
  rw [List.set_eq_of_length_le h]

theorem applyOp_M_split (E setIdx t : Nat) (cs : CacheState)
    (hvb : validBool (cs.sets.getD setIdx [])) :
    applyOp 'M' E setIdx t cs =
      applyOp 'S' E setIdx t (applyOp 'L' E setIdx t cs) := by
  by_cases hlt : setIdx < cs.sets.length
  · have hsplit : operationC 'M' E t (cs.sets.getD setIdx []) cs.counts =
        operationC 'S' E t
          (operationC 'L' E t (cs.sets.getD setIdx []) cs.counts).1
          (operationC 'L' E t (cs.sets.getD setIdx []) cs.counts).2 :=
      operationM_eq_LS E t (cs.sets.getD setIdx []) cs.counts hvb
    have happEq : ∀ (op2 : Char) (cs2 : CacheState), applyOp op2 E setIdx t cs2 =
        ⟨cs2.sets.set setIdx
          (operationC op2 E t (cs2.sets.getD setIdx []) cs2.counts).1,
          (operationC op2 E t (cs2.sets.getD setIdx []) cs2.counts).2⟩ :=
      fun op2 cs2 => rfl
    rw [happEq 'M', happEq 'L', happEq 'S']
    dsimp only
    rw [getD_set_self _ _ _ _ hlt, List.set_set, hsplit]
  · rw [applyOp_nop_of_out_of_range 'M' E setIdx t cs (by omega),
      applyOp_nop_of_out_of_range 'L' E setIdx t cs (by omega),
      applyOp_nop_of_out_of_range 'S' E setIdx t cs (by omega)]

/-! ### Counter updates against the table of the spec -/

theorem classify_nop_shape (E t : Nat) (lines : List Line)
    (hh : findHit t lines = none) (hf : findFree lines = none)
    (hv : findVictim E lines = none) : classify E t lines = .NOP := by
  unfold classify
  rw [hh, hf, hv]

theorem operationC_counts_table (op : Char) (E t : Nat) (lines : List Line)
    (c : Tally) (hop : op ≠ 'I') :
    (operationC op E t lines c).2 =
      tallyAdd c (specTableDelta op (classify E t lines)) := by
  by_cases hM : op = 'M'
  · subst hM
    cases hh : findHit t lines with
    | some i =>
      rw [operationC_hit_branch 'M' E t lines c i hh, classify_hit E t lines i hh]
      simp [specTableDelta, tallyAdd]
    | none =>
      cases hf : findFree lines with
      | some i =>
        rw [operationC_miss_branch 'M' E t lines c i hh hf,
          classify_miss E t lines i hh hf]
        simp [specTableDelta, tallyAdd]
      | none =>
        cases hv : findVictim E lines with
        | some i =>
          rw [operationC_evict_branch 'M' E t lines c i hh hf hv,
            classify_evict E t lines i hh hf hv]
          simp [specTableDelta, tallyAdd]
        | none =>
          rw [operationC_nop_branch 'M' E t lines c hh hf hv,
            classify_nop_shape E t lines hh hf hv]
          simp [specTableDelta, tallyAdd]
  · cases hh : findHit t lines with
    | some i =>
      rw [operationC_hit_branch op E t lines c i hh, classify_hit E t lines i hh]
      simp [specTableDelta, tallyAdd, hM, hop]
    | none =>
      cases hf : findFree lines with
      | some i =>
        rw [operationC_miss_branch op E t lines c i hh hf,
          classify_miss E t lines i hh hf]
        simp [specTableDelta, tallyAdd, hM, hop]
      | none =>
        cases hv : findVictim E lines with
        | some i =>
          rw [operationC_evict_branch op E t lines c i hh hf hv,
            classify_evict E t lines i hh hf hv]
          simp [specTableDelta, tallyAdd, hM, hop]
        | none =>
          rw [operationC_nop_branch op E t lines c hh hf hv,
            classify_nop_shape E t lines hh hf hv]
          simp [specTableDelta, tallyAdd, hM, hop]

/-! ### Scan result characterizations in membership form -/

theorem findHit_none_iff (t : Nat) (lines : List Line) :
    findHit t lines = none ↔ ∀ l ∈ lines, ¬ (l.valid = 1 ∧ l.tag = t) := by
  unfold findHit
  rw [scan1_eq_none_iff]
  simp [hitPred]

theorem findFree_none_iff (lines : List Line) :
    findFree lines = none ↔ ∀ l ∈ lines, ¬ l.valid = 0 := by
  unfold findFree
  rw [scan1_eq_none_iff]
  simp [freePred]

/-! ### Address decomposition arithmetic -/

theorem decode_set_formula (b s a : Nat) (hs : 1 ≤ s) (hbs : s + b ≤ 63) :
    a * 2 ^ (64 - (b + s)) % 2 ^ 64 / 2 ^ (64 - s) = a / 2 ^ b % 2 ^ s := by
  have h64 : (2 : Nat) ^ 64 = 2 ^ (b + s) * 2 ^ (64 - (b + s)) := by
    rw [← pow_add]
    congr 1
    omega
  rw [h64, Nat.mul_mod_mul_right]
  have hsplit : 64 - s = b + (64 - (b + s)) := by omega
  rw [hsplit, pow_add 2 b (64 - (b + s))]
  rw [mul_comm ((2 : Nat) ^ b) (2 ^ (64 - (b + s)))]
  rw [← Nat.div_div_eq_div_mul]
  rw [Nat.mul_div_cancel _ (pow_pos (by norm_num) _)]
  have hbsplit : (2 : Nat) ^ (b + s) = 2 ^ b * 2 ^ s := by rw [← pow_add]
  rw [hbsplit, Nat.mod_mul_right_div_self]

theorem decode_some (b s a : Nat) (hs : 1 ≤ s) (hbs : s + b ≤ 63) :
    decode b s a =
      some (a / 2 ^ (b + s) % 2 ^ 32, a / 2 ^ b % 2 ^ s % 2 ^ 32) := by
  unfold decode
  rw [if_pos ⟨hs, hbs⟩, decode_set_formula b s a hs hbs]

/-! ### Storage is untouched on a hit -/

theorem hit_frame_operationC (op : Char) (E t : Nat) (lines : List Line)
    (c : Tally) (hcl : classify E t lines = .HIT) :
    ((operationC op E t lines c).1).map storageView = lines.map storageView := by
  cases hh : findHit t lines with
  | some i =>
    rw [operationC_hit_branch op E t lines c i hh]
    show (hitUpd lines i).map storageView = _
    unfold hitUpd
    exact updateLRU_storageView _ _
  | none =>
    exfalso
    cases hf : findFree lines with
    | some i =>
      rw [classify_miss E t lines i hh hf] at hcl
      cases hcl
    | none =>
      cases hv : findVictim E lines with
      | some i =>
        rw [classify_evict E t lines i hh hf hv] at hcl
        cases hcl
      | none =>
        rw [classify_nop_shape E t lines hh hf hv] at hcl
        cases hcl

theorem specTableDelta_I (cl : Classification) :
    specTableDelta 'I' cl = ⟨0, 0, 0⟩ := by
  unfold specTableDelta
  rw [if_neg (by decide), if_pos rfl]

/-! ## Claim theorems -/

/-- C1: for every access event the counter updates are exactly those of the
classification table (Load/Store: +1 hit on HIT, +1 miss on MISS_FILL,
+1 miss and +1 eviction on MISS_EVICT; Modify: +2 hits on HIT, +1 hit and
+1 miss on MISS_FILL, +1 hit, +1 miss and +1 eviction on MISS_EVICT;
Instruction: nothing), and a Modify behaves exactly as a Load immediately
followed by a Store to the same decoded address, the second sub-access
always a hit. -/
theorem counter_updates_match_table (E setIdx t : Nat) (cs : CacheState)
    (hperm : rankPerm E (cs.sets.getD setIdx [])) (hE : 1 ≤ E)
    (hvb : validBool (cs.sets.getD setIdx [])) :
    classify E t (cs.sets.getD setIdx []) ≠ .NOP ∧
    (∀ op, op = 'L' ∨ op = 'S' ∨ op = 'M' ∨ op = 'I' →
      (stepEvent E op setIdx t cs).1.counts =
        tallyAdd cs.counts
          (specTableDelta op (classify E t (cs.sets.getD setIdx [])))) ∧
    stepEvent E 'M' setIdx t cs =
      stepEvent E 'S' setIdx t (stepEvent E 'L' setIdx t cs).1 := by
  refine ⟨classify_ne_nop E t _ hperm hE, ?_, ?_⟩
  · intro op hop
    rcases hop with rfl | rfl | rfl | rfl
    · rw [stepEvent_L]
      exact operationC_counts_table 'L' E t _ cs.counts (by decide)
    · rw [stepEvent_S]
      exact operationC_counts_table 'S' E t _ cs.counts (by decide)
    · rw [stepEvent_M]
      exact operationC_counts_table 'M' E t _ cs.counts (by decide)
    · rw [stepEvent_I, specTableDelta_I, tallyAdd_zero]
  · rw [stepEvent_M, stepEvent_L, stepEvent_S,
      applyOp_M_split E setIdx t cs hvb]

theorem counter_updates_match_table_witness :
    (rankPerm 1 ((initState 1 1).sets.getD 0 []) ∧ 1 ≤ 1 ∧
      validBool ((initState 1 1).sets.getD 0 [])) ∧
    (classify 1 5 ((initState 1 1).sets.getD 0 []) ≠ .NOP ∧
    (∀ op, op = 'L' ∨ op = 'S' ∨ op = 'M' ∨ op = 'I' →
      (stepEvent 1 op 0 5 (initState 1 1)).1.counts =
        tallyAdd (initState 1 1).counts
          (specTableDelta op (classify 1 5 ((initState 1 1).sets.getD 0 [])))) ∧
    stepEvent 1 'M' 0 5 (initState 1 1) =
      stepEvent 1 'S' 0 5 (stepEvent 1 'L' 0 5 (initState 1 1)).1) :=
  ⟨⟨by decide, by decide, by decide⟩,
    counter_updates_match_table 1 0 5 (initState 1 1) (by decide) (by decide)
      (by decide)⟩

/-- C2: after initialization and after processing any sequence of access
events, in every set the multiset of rank (`lru`) values over its
`linesPerSet` lines — valid and invalid alike — is exactly
`{0, 1, …, linesPerSet-1}`, with no ties and no gaps. -/
theorem rank_permutation_invariant (numSets E : Nat)
    (evs : List (Char × Nat × Nat)) (j : Nat) (hj : j < numSets) :
    rankPerm E ((runEvents E evs (initState numSets E)).sets.getD j []) := by
  have hinv := setsInv_runEvents numSets E (goodSet E)
    (fun op t c lines h => goodSet_operationC op E t lines c h) evs
    (initState numSets E)
    (setsInv_initState numSets E (goodSet E) (goodSet_initSet E))
  exact goodSet_rankPerm E _ (hinv.2 j hj)

theorem rank_permutation_invariant_witness :
    0 < 2 ∧ rankPerm 2 ((runEvents 2
      [('L', 0, 5), ('M', 0, 9), ('S', 1, 5), ('X', 0, 7), ('I', 1, 1)]
      (initState 2 2)).sets.getD 0 []) :=
  ⟨by decide, rank_permutation_invariant 2 2
    [('L', 0, 5), ('M', 0, 9), ('S', 1, 5), ('X', 0, 7), ('I', 1, 1)] 0
    (by decide)⟩

/-- C3: a Load/Store/Modify event is classified MISS_EVICT (incrementing
the eviction counter) iff, at classification time, the target set has no
valid line with the decoded tag and zero invalid (free) lines; the
evicted line is the unique line whose rank equals `linesPerSet - 1`, and
it receives the new tag. -/
theorem eviction_iff_full_and_no_match (op : Char) (E t : Nat)
    (lines : List Line) (c : Tally)
    (hop : op = 'L' ∨ op = 'S' ∨ op = 'M')
    (hperm : rankPerm E lines) (hE : 1 ≤ E) :
    ((operationC op E t lines c).2.evictions = c.evictions + 1 ↔
      ((∀ l ∈ lines, ¬ (l.valid = 1 ∧ l.tag = t)) ∧
        (∀ l ∈ lines, ¬ l.valid = 0))) ∧
    (classify E t lines = .MISS_EVICT ↔
      ((∀ l ∈ lines, ¬ (l.valid = 1 ∧ l.tag = t)) ∧
        (∀ l ∈ lines, ¬ l.valid = 0))) ∧
    (classify E t lines = .MISS_EVICT →
      ∃ i, i < lines.length ∧ (lineAt lines i).lru = E - 1 ∧
        (∀ j2, j2 < lines.length → (lineAt lines j2).lru = E - 1 → j2 = i) ∧
        (lineAt (operationC op E t lines c).1 i).tag = t) := by
  cases hh : findHit t lines with
  | some i =>
    obtain ⟨hilen, hp, -⟩ := scan1_eq_some _ _ _ hh
    have hmem := lineAt_mem lines i hilen
    have hpv : (lineAt lines i).valid = 1 ∧ (lineAt lines i).tag = t := by
      simpa [hitPred] using hp
    have hR : ¬ ((∀ l ∈ lines, ¬ (l.valid = 1 ∧ l.tag = t)) ∧
        (∀ l ∈ lines, ¬ l.valid = 0)) := fun hcon => hcon.1 _ hmem hpv
    have hcl := classify_hit E t lines i hh
    rw [operationC_hit_branch op E t lines c i hh, hcl]
    exact ⟨iff_of_false (by intro habs; simp at habs) hR, iff_of_false (by decide) hR,
      fun habs => absurd habs (by decide)⟩
  | none =>
    cases hf : findFree lines with
    | some i =>
      obtain ⟨hilen, hp, -⟩ := scan1_eq_some _ _ _ hf
      have hmem := lineAt_mem lines i hilen
      have hv0 : (lineAt lines i).valid = 0 := by
        simpa [freePred] using hp
      have hR : ¬ ((∀ l ∈ lines, ¬ (l.valid = 1 ∧ l.tag = t)) ∧
          (∀ l ∈ lines, ¬ l.valid = 0)) := fun hcon => hcon.2 _ hmem hv0
      have hcl := classify_miss E t lines i hh hf
      rw [operationC_miss_branch op E t lines c i hh hf, hcl]
      exact ⟨iff_of_false (by intro habs; simp at habs) hR, iff_of_false (by decide) hR,
        fun habs => absurd habs (by decide)⟩
    | none =>
      cases hv : findVictim E lines with
      | some i =>
        obtain ⟨hilen, hp, -⟩ := scan1_eq_some _ _ _ hv
        have hli : (lineAt lines i).lru = E - 1 := by
          simpa [victimPred] using hp
        have hRT : (∀ l ∈ lines, ¬ (l.valid = 1 ∧ l.tag = t)) ∧
            (∀ l ∈ lines, ¬ l.valid = 0) :=
          ⟨(findHit_none_iff t lines).mp hh, (findFree_none_iff lines).mp hf⟩
        have hcl := classify_evict E t lines i hh hf hv
        have hnodup : (lines.map Line.lru).Nodup :=
          hperm.symm.nodup (List.nodup_range E)
        have huniq : ∀ j2, j2 < lines.length →
            (lineAt lines j2).lru = E - 1 → j2 = i := by
          intro j2 hj2 hl2
          have hb1 : j2 < (lines.map Line.lru).length := by simpa using hj2
          have hb2 : i < (lines.map Line.lru).length := by simpa using hilen
          have h1 : (lines.map Line.lru).get ⟨j2, hb1⟩ =
              (lines.map Line.lru).get ⟨i, hb2⟩ := by
            simp only [List.get_eq_getElem, List.getElem_map]
            rw [← lineAt_eq_get _ _ hj2, ← lineAt_eq_get _ _ hilen, hl2, hli]
          exact congrArg Fin.val ((List.Nodup.get_inj_iff hnodup).mp h1)
        have htag : (lineAt (evictUpd op t lines i) i).tag = t := by
          by_cases hop2 : op = 'L'
          · rw [hop2, evictUpd_L, lineAt_updateLRU _ _ _ (by simpa using hilen),
              touchLine_tag, lineAt_set_self _ _ _ hilen]
          · rw [evictUpd_not_L op t lines i hop2,
              lineAt_updateLRU _ _ _ (by simpa using hilen),
              touchLine_tag, lineAt_set_self _ _ _ hilen]
        rw [operationC_evict_branch op E t lines c i hh hf hv, hcl]
        exact ⟨iff_of_true rfl hRT, iff_of_true rfl hRT,
          fun _ => ⟨i, hilen, hli, huniq, htag⟩⟩
      | none =>
        exfalso
        obtain ⟨j2, hj2⟩ := rankPerm_victim E lines hperm hE
        rw [hv] at hj2
        cases hj2

theorem eviction_iff_full_and_no_match_witness :
    (('L' : Char) = 'L' ∨ ('L' : Char) = 'S' ∨ ('L' : Char) = 'M') ∧
    rankPerm 1 [⟨1, 7, 0⟩] ∧ 1 ≤ 1 ∧
    (((operationC 'L' 1 9 [⟨1, 7, 0⟩] ⟨0, 0, 0⟩).2.evictions = 0 + 1 ↔
      ((∀ l ∈ [⟨1, 7, 0⟩], ¬ ((l : Line).valid = 1 ∧ l.tag = 9)) ∧
        (∀ l ∈ [⟨1, 7, 0⟩], ¬ (l : Line).valid = 0))) ∧
    (classify 1 9 [⟨1, 7, 0⟩] = .MISS_EVICT ↔
      ((∀ l ∈ [⟨1, 7, 0⟩], ¬ ((l : Line).valid = 1 ∧ l.tag = 9)) ∧
        (∀ l ∈ [⟨1, 7, 0⟩], ¬ (l : Line).valid = 0))) ∧
    (classify 1 9 [⟨1, 7, 0⟩] = .MISS_EVICT →
      ∃ i, i < ([⟨1, 7, 0⟩] : List Line).length ∧
        (lineAt [⟨1, 7, 0⟩] i).lru = 1 - 1 ∧
        (∀ j2, j2 < ([⟨1, 7, 0⟩] : List Line).length →
          (lineAt [⟨1, 7, 0⟩] j2).lru = 1 - 1 → j2 = i) ∧
        (lineAt (operationC 'L' 1 9 [⟨1, 7, 0⟩] ⟨0, 0, 0⟩).1 i).tag = 9)) :=
  ⟨Or.inl rfl, by decide, by decide,
    eviction_iff_full_and_no_match 'L' 1 9 [⟨1, 7, 0⟩] ⟨0, 0, 0⟩
      (Or.inl rfl) (by decide) (by decide)⟩

/-- C4 counterexample: the claim asserts that decoding is total with no
undefined result for every geometry with `s ≥ 0`, `b ≥ 0`, `s + b ≤ 64`,
and that for `s = 0` every address decodes to set index 0.  In the code,
`s = 0` makes the shift count `64 - s` equal to 64 and `s + b = 64` makes
the tag shift count 64 — shifting a 64-bit value by 64 bits, undefined in
C — so the decode has no defined result there instead of set index 0. -/
theorem decode_shift_by_64_undefined :
    decode 0 0 1 = none ∧ decode 32 32 1 = none := by
  decide

/-- C4 (amended): address decomposition is total and deterministic for
every 64-bit address on every geometry with `1 ≤ s` and `s + b ≤ 63`
(the geometries where every C shift count stays below 64): decode returns
`tag = (address >> (b+s)) mod 2^32` and
`setIndex = ((address >> b) mod 2^s) mod 2^32`, the `mod 2^32` being the
C `int` truncation of the two decoded values.  For `s = 0` or
`s + b = 64` the code's shift count reaches 64 and the result is
undefined rather than set index 0. -/
theorem decode_total_on_defined_geometry (b s a : Nat) (hs : 1 ≤ s)
    (hbs : s + b ≤ 63) (ha : a < 2 ^ 64) :
    decode b s a =
      some (a / 2 ^ (b + s) % 2 ^ 32, a / 2 ^ b % 2 ^ s % 2 ^ 32) :=
  decode_some b s a hs hbs

theorem decode_total_on_defined_geometry_witness :
    1 ≤ 1 ∧ 1 + 0 ≤ 63 ∧ 5 < 2 ^ 64 ∧
    decode 0 1 5 = some (5 / 2 ^ (0 + 1) % 2 ^ 32, 5 / 2 ^ 0 % 2 ^ 1 % 2 ^ 32) :=
  ⟨by decide, by decide, by decide,
    decode_total_on_defined_geometry 0 1 5 (by decide) (by decide) (by decide)⟩

/-- C5: after initialization and after processing any sequence of access
events, no two distinct valid lines of any set hold the same tag. -/
theorem at_most_one_tag_per_set (numSets E : Nat)
    (evs : List (Char × Nat × Nat)) (j : Nat) (hj : j < numSets) :
    tagsOnce ((runEvents E evs (initState numSets E)).sets.getD j []) := by
  have hinv := setsInv_runEvents numSets E tagsOnce
    (fun op t c lines h => tagsOnce_operationC op E t lines c h) evs
    (initState numSets E)
    (setsInv_initState numSets E tagsOnce (tagsOnce_initSet E))
  exact hinv.2 j hj

theorem at_most_one_tag_per_set_witness :
    0 < 2 ∧ tagsOnce ((runEvents 2
      [('L', 0, 5), ('S', 0, 5), ('M', 0, 9), ('L', 1, 4)]
      (initState 2 2)).sets.getD 0 []) :=
  ⟨by decide, at_most_one_tag_per_set 2 2
    [('L', 0, 5), ('S', 0, 5), ('M', 0, 9), ('L', 1, 4)] 0 (by decide)⟩

/-- C6 counterexample: the claim asserts that zero lines-per-set is
detected at cache construction, reported as a ConfigurationError, and
that the simulation is never run with `linesPerSet = 0`.  In the code
there is no geometry validation at all: construction with
`linesPerSet = 0` succeeds (sets with zero lines), and a Load event is
then processed by the engine with no error signal and no effect. -/
theorem zero_lines_construction_runs :
    initState 1 0 = ⟨[[]], ⟨0, 0, 0⟩⟩ ∧
    stepEvent 0 'L' 0 0 (initState 1 0) = (initState 1 0, none) := by
  decide

/-- C6 (amended): the engine performs no geometry validation; cache
construction with `linesPerSet = 0` succeeds, producing sets with zero
lines, and the simulation runs: every event sequence then leaves the
cache and all three counters exactly as initialized (no line can match,
be filled, or be evicted), with no ConfigurationError reported. -/
theorem zero_lines_per_set_runs_as_no_op (n : Nat)
    (evs : List (Char × Nat × Nat)) :
    runEvents 0 evs (initState n 0) = initState n 0 := by
  have hfix : ∀ op si t2,
      (stepEvent 0 op si t2 (initState n 0)).1 = initState n 0 := by
    intro op si t2
    have happ : ∀ op2, applyOp op2 0 si t2 (initState n 0) = initState n 0 := by
      intro op2
      have hrep : (initState n 0).sets = List.replicate n [] := by
        show List.replicate n (initSet 0) = List.replicate n []
        rfl
      have hg : (initState n 0).sets.getD si [] = [] := by
        rw [hrep]
        by_cases hsi : si < n
        · rw [getD_eq_get _ _ _ (by simpa using hsi)]
          simp
        · exact getD_eq_of_length_le _ _ _ (by simpa using hsi)
      unfold applyOp
      rw [hg, operationC_nop_branch op2 0 t2 [] _ rfl rfl rfl]
      show (⟨(initState n 0).sets.set si [], (initState n 0).counts⟩ :
        CacheState) = initState n 0
      rw [hrep, set_replicate_self]
      rfl
    unfold stepEvent
    by_cases h1 : op = 'L'
    · rw [if_pos h1]
      exact happ 'L'
    · rw [if_neg h1]
      by_cases h2 : op = 'S'
      · rw [if_pos h2]
        exact happ 'S'
      · rw [if_neg h2]
        by_cases h3 : op = 'M'
        · rw [if_pos h3]
          exact happ 'M'
        · rw [if_neg h3]
          by_cases h4 : op = 'I'
          · rw [if_pos h4]
          · rw [if_neg h4]
  induction evs with
  | nil => rfl
  | cons e rest ih =>
    have hstep : runEvents 0 (e :: rest) (initState n 0) =
        runEvents 0 rest (stepEvent 0 e.1 e.2.1 e.2.2 (initState n 0)).1 := rfl
    rw [hstep, hfix]
    exact ih

/-- C7: for every event whose kind letter is outside {L, S, M, I}, the
engine reports the UnrecognizedEventKind error and the failure is
side-effect-free: the returned cache state — every line's valid, tag and
rank in every set, and all three counters — is exactly the input state. -/
theorem unrecognized_kind_no_side_effect (E : Nat) (op : Char)
    (setIdx t : Nat) (cs : CacheState) (h1 : op ≠ 'L') (h2 : op ≠ 'S')
    (h3 : op ≠ 'M') (h4 : op ≠ 'I') :
    stepEvent E op setIdx t cs = (cs, some SimError.UnrecognizedEventKind) := by
  unfold stepEvent
  rw [if_neg h1, if_neg h2, if_neg h3, if_neg h4]

theorem unrecognized_kind_no_side_effect_witness :
    ('X' : Char) ≠ 'L' ∧ ('X' : Char) ≠ 'S' ∧ ('X' : Char) ≠ 'M' ∧
    ('X' : Char) ≠ 'I' ∧
    stepEvent 2 'X' 0 3 (initState 4 2) =
      (initState 4 2, some SimError.UnrecognizedEventKind) :=
  ⟨by decide, by decide, by decide, by decide,
    unrecognized_kind_no_side_effect 2 'X' 0 3 (initState 4 2) (by decide)
      (by decide) (by decide) (by decide)⟩

/-- C8: issuing the same Load twice in immediate succession on one set,
the first access is classified as a hit or a miss (fill or evict) and
the second access is always classified HIT. -/
theorem repeated_load_second_hits (E t : Nat) (lines : List Line) (c : Tally)
    (hperm : rankPerm E lines) (hE : 1 ≤ E) :
    (classify E t lines = .HIT ∨ classify E t lines = .MISS_FILL ∨
      classify E t lines = .MISS_EVICT) ∧
    classify E t (operationL E t lines c).1 = .HIT :=
  ⟨classify_three_cases E t lines hperm hE,
    classify_after_L E t lines c hperm hE⟩

theorem repeated_load_second_hits_witness :
    rankPerm 1 [⟨0, 0, 0⟩] ∧ 1 ≤ 1 ∧
    ((classify 1 3 [⟨0, 0, 0⟩] = .HIT ∨
      classify 1 3 [⟨0, 0, 0⟩] = .MISS_FILL ∨
      classify 1 3 [⟨0, 0, 0⟩] = .MISS_EVICT) ∧
    classify 1 3 (operationL 1 3 [⟨0, 0, 0⟩] ⟨0, 0, 0⟩).1 = .HIT) :=
  ⟨by decide, by decide,
    repeated_load_second_hits 1 3 [⟨0, 0, 0⟩] ⟨0, 0, 0⟩ (by decide) (by decide)⟩

/-- C9: on a HIT the storage is not mutated: processing the event leaves
every line's valid and tag fields in every set unchanged, and sets other
than the decoded target set are entirely unchanged (only ranks within
the target set may change). -/
theorem hit_no_storage_mutation (op : Char) (E setIdx t : Nat)
    (cs : CacheState) (hop : op = 'L' ∨ op = 'S' ∨ op = 'M')
    (hcl : classify E t (cs.sets.getD setIdx []) = .HIT) :
    ((stepEvent E op setIdx t cs).1.sets.map (fun s2 => s2.map storageView) =
      cs.sets.map (fun s2 => s2.map storageView)) ∧
    (∀ j, j ≠ setIdx →
      (stepEvent E op setIdx t cs).1.sets.getD j [] = cs.sets.getD j []) := by
  have hlt : setIdx < cs.sets.length := by
    by_contra hcon
    rw [getD_eq_of_length_le _ _ _ (by omega)] at hcl
    have hnop : classify E t [] = .NOP := rfl
    rw [hnop] at hcl
    cases hcl
  have hsets : (stepEvent E op setIdx t cs).1.sets =
      cs.sets.set setIdx
        (operationC op E t (cs.sets.getD setIdx []) cs.counts).1 := by
    rcases hop with rfl | rfl | rfl
    · rw [stepEvent_L]
      rfl
    · rw [stepEvent_S]
      rfl
    · rw [stepEvent_M]
      rfl
  constructor
  · rw [hsets, List.map_set,
      hit_frame_operationC op E t _ cs.counts hcl]
    have hval : (cs.sets.getD setIdx []).map storageView =
        (cs.sets.map (fun s2 => s2.map storageView)).getD setIdx [] := by
      rw [getD_eq_get _ _ _ hlt, getD_eq_get _ _ _ (by simpa using hlt)]
      simp
    rw [hval, set_getD_self _ _ _ (by simpa using hlt)]
  · intro j hj
    rw [hsets, getD_set_other _ _ _ _ _ (Ne.symm hj)]

theorem hit_no_storage_mutation_witness :
    (('S' : Char) = 'L' ∨ ('S' : Char) = 'S' ∨ ('S' : Char) = 'M') ∧
    classify 1 7 (((⟨[[⟨1, 7, 0⟩]], ⟨0, 0, 0⟩⟩ : CacheState)).sets.getD 0 []) =
      .HIT ∧
    (((stepEvent 1 'S' 0 7 ⟨[[⟨1, 7, 0⟩]], ⟨0, 0, 0⟩⟩).1.sets.map
        (fun s2 => s2.map storageView) =
      ((⟨[[⟨1, 7, 0⟩]], ⟨0, 0, 0⟩⟩ : CacheState)).sets.map
        (fun s2 => s2.map storageView)) ∧
    (∀ j, j ≠ 0 →
      (stepEvent 1 'S' 0 7 ⟨[[⟨1, 7, 0⟩]], ⟨0, 0, 0⟩⟩).1.sets.getD j [] =
        ((⟨[[⟨1, 7, 0⟩]], ⟨0, 0, 0⟩⟩ : CacheState)).sets.getD j [])) :=
  ⟨Or.inr (Or.inl rfl), by decide,
    hit_no_storage_mutation 'S' 1 0 7 ⟨[[⟨1, 7, 0⟩]], ⟨0, 0, 0⟩⟩
      (Or.inr (Or.inl rfl)) (by decide)⟩

/-- C10: tags are compared modulo 2^32.  For any two addresses that decode
to the same set index and whose full 64-bit tags `address >> (b+s)` are
congruent modulo 2^32 but not equal, the decoder produces the same stored
tag for both (a 32-bit truncation), so after a Load of the first address
installs its line, an access with the second address's decoded tag in the
same set is classified HIT. -/
theorem tags_compared_mod_2_pow_32 (b s a1 a2 E : Nat) (lines : List Line)
    (c : Tally) (hs : 1 ≤ s) (hbs : s + b ≤ 63)
    (hset : a1 / 2 ^ b % 2 ^ s = a2 / 2 ^ b % 2 ^ s)
    (hcong : a1 / 2 ^ (b + s) % 2 ^ 32 = a2 / 2 ^ (b + s) % 2 ^ 32)
    (hne : a1 / 2 ^ (b + s) ≠ a2 / 2 ^ (b + s))
    (hperm : rankPerm E lines) (hE : 1 ≤ E) :
    ∃ t1 si, decode b s a1 = some (t1, si) ∧ decode b s a2 = some (t1, si) ∧
      classify E t1 (operationL E t1 lines c).1 = .HIT := by
  refine ⟨a1 / 2 ^ (b + s) % 2 ^ 32, a1 / 2 ^ b % 2 ^ s % 2 ^ 32,
    decode_some b s a1 hs hbs, ?_, classify_after_L E _ lines c hperm hE⟩
  rw [decode_some b s a2 hs hbs, hcong, hset]

theorem tags_compared_mod_2_pow_32_witness :
    1 ≤ 1 ∧ 1 + 0 ≤ 63 ∧
    (0 : Nat) / 2 ^ 0 % 2 ^ 1 = 2 ^ 33 / 2 ^ 0 % 2 ^ 1 ∧
    (0 : Nat) / 2 ^ (0 + 1) % 2 ^ 32 = 2 ^ 33 / 2 ^ (0 + 1) % 2 ^ 32 ∧
    (0 : Nat) / 2 ^ (0 + 1) ≠ 2 ^ 33 / 2 ^ (0 + 1) ∧
    rankPerm 1 [⟨0, 0, 0⟩] ∧ 1 ≤ 1 ∧
    (∃ t1 si, decode 0 1 0 = some (t1, si) ∧
      decode 0 1 (2 ^ 33) = some (t1, si) ∧
      classify 1 t1 (operationL 1 t1 [⟨0, 0, 0⟩] ⟨0, 0, 0⟩).1 = .HIT) :=
  ⟨by decide, by decide, by decide, by decide, by decide, by decide, by decide,
    tags_compared_mod_2_pow_32 0 1 0 (2 ^ 33) 1 [⟨0, 0, 0⟩] ⟨0, 0, 0⟩
      (by decide) (by decide) (by decide) (by decide) (by decide) (by decide)
      (by decide)⟩

end Csim
